import Mathlib

/-!
Verification of the VoxTape `native-audio-capture` library
(`src/libs/native-audio-capture/src/resampler.rs` and `lib.rs`).

The resampler is embedded shallowly: `f32` samples are modelled as exact
rationals (`ℚ`), `i16` output samples as `ℤ`, and `Vec` as `List`.  The
per-frame loop of `Resampler::process` becomes a structural recursion over
the list of frame indices, mirroring `for frame_idx in 0..frame_count`.
Fallible behaviour (the division by zero that `input.len() / channels`
would raise in Rust when `channels == 0`) is modelled by an `Option`
result.  The session lifecycle of `lib.rs` (`start_capture` /
`stop_capture`) is embedded as explicit state passing over the two global
cells `CAPTURE_STATE` and `CALLBACK_CONTEXT`; the external backend call
`sourdine_sck_start_capture` is represented by its integer result code,
passed in as a parameter.
-/

namespace VoxTape

/-- The 15-tap FIR low-pass coefficients `LPF_TAPS` from `resampler.rs`. -/
def LPF_TAPS : List ℚ :=
  [0.0024, 0.0060, 0.0177, 0.0393, 0.0694,
   0.1013, 0.1268, 0.1372, 0.1268, 0.1013,
   0.0694, 0.0393, 0.0177, 0.0060, 0.0024]

/-- The `Resampler` struct: FIR delay line plus decimation phase counter. -/
structure Resampler where
  delay_line : List ℚ
  phase : Nat
deriving DecidableEq, Repr

/-- `Resampler::new()`: delay line of `LPF_TAPS.len()` zeros, phase 0. -/
def Resampler.new : Resampler :=
  ⟨List.replicate LPF_TAPS.length 0, 0⟩

/-- `Resampler::reset()`: `delay_line.fill(0.0)` keeps the current length and
zeroes every entry; the phase is reset to 0. -/
def Resampler.reset (st : Resampler) : Resampler :=
  ⟨List.replicate st.delay_line.length 0, 0⟩

/-- Rust `f32::round`: round half away from zero, modelled on `ℚ`. -/
def roundAway (q : ℚ) : ℤ :=
  if 0 ≤ q then ⌊q + 1/2⌋ else ⌈q - 1/2⌉

/-- `.clamp(-32768.0, 32767.0)` followed by the (now lossless) `as i16`. -/
def clampI16 (z : ℤ) : ℤ :=
  max (-32768) (min 32767 z)

/-- `(filtered * 32767.0).round().clamp(-32768.0, 32767.0) as i16`. -/
def quantize (filtered : ℚ) : ℤ :=
  clampI16 (roundAway (filtered * 32767))

/-- The FIR convolution loop: `filtered += self.delay_line[i] * coeff` for
each `(i, coeff)` in `LPF_TAPS.iter().enumerate()`.  The delay line always
has length `LPF_TAPS.length`, so the `zipWith` traverses exactly the same
index range as the Rust loop. -/
def firConv (dl : List ℚ) : ℚ :=
  (List.zipWith (· * ·) dl LPF_TAPS).sum

/-- The stereo→mono mixdown of frame `frame_idx`, reading
`input[frame_idx * channels]` (and `input[frame_idx * channels + 1]` when
`channels ≥ 2`).  Inside `process` the indices are always in bounds, so the
`getD` default is never exercised there. -/
def mixdown (input : List ℚ) (channels frame_idx : Nat) : ℚ :=
  if 2 ≤ channels then
    (input.getD (frame_idx * channels) 0 + input.getD (frame_idx * channels + 1) 0) * (1/2)
  else
    input.getD (frame_idx * channels) 0

/-- One iteration of the frame loop body of `Resampler::process`:
`delay_line.remove(0)` then `push(mono)` (the delay line is never empty in
any reachable state, so `remove(0)` is `tail`), then the decimation gate. -/
def stepFrame (d : Nat) (st : Resampler) (mono : ℚ) : Resampler × Option ℤ :=
  let dl := st.delay_line.tail ++ [mono]
  let phase := st.phase + 1
  if d ≤ phase then
    (⟨dl, 0⟩, some (quantize (firConv dl)))
  else
    (⟨dl, phase⟩, none)

/-- The frame loop `for frame_idx in 0..frame_count`, threaded over the list
of frame indices. -/
def processFrames (input : List ℚ) (channels d : Nat) :
    List Nat → Resampler → List ℤ × Resampler
  | [], st => ([], st)
  | idx :: rest, st =>
    let r := stepFrame d st (mixdown input channels idx)
    let r2 := processFrames input channels d rest r.1
    (r.2.toList ++ r2.1, r2.2)

/-- `Resampler::process`.  Returns `none` exactly when the Rust code panics:
`input.len() / channels` divides by zero (reached only when the
`decimation_factor == 0` early return did not fire). -/
def process (st : Resampler) (input : List ℚ) (channels input_rate : Nat) :
    Option (List ℤ × Resampler) :=
  let d := input_rate / 16000
  if d = 0 then some ([], st)
  else if channels = 0 then none
  else
    let frame_count := input.length / channels
    some (processFrames input channels d (List.range frame_count) st)

/-- Spec-side view: the `j`-th complete frame of the interleaved input
(`channel_count` consecutive samples starting at `j * channel_count`). -/
def frameAt (input : List ℚ) (channels j : Nat) : List ℚ :=
  (input.drop (j * channels)).take channels

/-- Spec-side definition, following the spec's words: the mono value of one
frame is the average of its first two channel samples when
`channel_count ≥ 2`, and the frame's single sample unchanged when
`channel_count = 1`.  Used only to compare with `mixdown`. -/
def monoOfFrameSpec (channels : Nat) (frame : List ℚ) : ℚ :=
  if 2 ≤ channels then (frame.getD 0 0 + frame.getD 1 0) * (1/2)
  else frame.getD 0 0

/-! ## Session lifecycle (`lib.rs`)

`start_capture` / `stop_capture` mutate two process-wide cells:
`CAPTURE_STATE : Mutex<Option<CaptureState>>` and
`CALLBACK_CONTEXT : Mutex<Option<Arc<CallbackContext>>>`.  We model the pair
of cells as an explicit `GlobalState` record and the operations as state
transformers.  The external C call `sourdine_sck_start_capture` is
represented by its `i32` result code, supplied as a parameter; the external
`sourdine_sck_stop_capture` call is recorded as a boolean "teardown was
invoked" output.  Lock poisoning (`LockUnavailable`) is a concurrency
failure outside this sequential model. -/

/-- `enum CaptureBackend` (only the `Sck` variant exists). -/
inductive CaptureBackend
  | Sck
deriving DecidableEq, Repr

/-- `struct CaptureState { backend: CaptureBackend }`. -/
structure CaptureState where
  backend : CaptureBackend
deriving DecidableEq, Repr

/-- `struct CallbackContext`: the JS callback handle (opaque, modelled as a
`Nat` identifier) together with the session's resampler. -/
structure CallbackContext where
  callback : Nat
  resampler : Resampler
deriving DecidableEq, Repr

/-- The two global cells of `lib.rs`. -/
structure GlobalState where
  capture_state : Option CaptureState
  callback_context : Option CallbackContext
deriving DecidableEq, Repr

/-- Result of `start_capture`: `ok` for `Ok(())`, the error constructors for
the `Error::from_reason` values `"Already capturing system audio"` and
`"SCK start capture failed with code {}"`. -/
inductive StartResult
  | ok
  | alreadyCapturing
  | backendStartFailed (code : Int)
deriving DecidableEq, Repr

/-- `start_capture` from `lib.rs` (macOS path; `backendResult` is the code
returned by the external `sourdine_sck_start_capture`). -/
def start_capture (cb : Nat) (backendResult : Int) (g : GlobalState) :
    StartResult × GlobalState :=
  if g.capture_state.isSome then
    (.alreadyCapturing, g)
  else
    let ctx : CallbackContext := ⟨cb, Resampler.new⟩
    let g1 : GlobalState := { g with callback_context := some ctx }
    if backendResult ≠ 0 then
      (.backendStartFailed backendResult, { g1 with callback_context := none })
    else
      (.ok, { g1 with capture_state := some ⟨.Sck⟩ })

/-- `stop_capture` from `lib.rs`: takes the capture state, clears the
callback context, and invokes the backend teardown only when a session was
active.  Returns `(result, new state, teardown invoked)`; every path of the
sequential model returns `Ok(())`. -/
def stop_capture (g : GlobalState) : Except String Unit × GlobalState × Bool :=
  let taken := g.capture_state
  let cleared : GlobalState := ⟨none, none⟩
  match taken with
  | none => (.ok (), cleared, false)
  | some _ => (.ok (), cleared, true)

end VoxTape

namespace VoxTape

theorem processFrames_nil (input : List ℚ) (c d : Nat) (st : Resampler) :
    processFrames input c d [] st = ([], st) := rfl

theorem processFrames_cons (input : List ℚ) (c d : Nat) (idx : Nat) (rest : List Nat)
    (st : Resampler) :
    processFrames input c d (idx :: rest) st =
      ((stepFrame d st (mixdown input c idx)).2.toList ++
        (processFrames input c d rest (stepFrame d st (mixdown input c idx)).1).1,
       (processFrames input c d rest (stepFrame d st (mixdown input c idx)).1).2) := rfl

theorem processFrames_append (input : List ℚ) (c d : Nat) (l₁ l₂ : List Nat)
    (st : Resampler) :
    processFrames input c d (l₁ ++ l₂) st =
      ((processFrames input c d l₁ st).1 ++
        (processFrames input c d l₂ (processFrames input c d l₁ st).2).1,
       (processFrames input c d l₂ (processFrames input c d l₁ st).2).2) := by
  induction l₁ generalizing st with
  | nil => simp [processFrames_nil]
  | cons idx rest ih =>
    simp only [List.cons_append, processFrames_cons, ih, List.append_assoc]

theorem processFrames_congr (inp₁ inp₂ : List ℚ) (c d : Nat) (l : List Nat)
    (st : Resampler) (h : ∀ i ∈ l, mixdown inp₁ c i = mixdown inp₂ c i) :
    processFrames inp₁ c d l st = processFrames inp₂ c d l st := by
  induction l generalizing st with
  | nil => rfl
  | cons idx rest ih =>
    rw [processFrames_cons, processFrames_cons, h idx (by simp),
      ih _ (fun i hi => h i (by simp [hi]))]

theorem processFrames_map_add (inp₁ inp₂ : List ℚ) (c d k : Nat) (l : List Nat)
    (st : Resampler) (h : ∀ i ∈ l, mixdown inp₁ c (k + i) = mixdown inp₂ c i) :
    processFrames inp₁ c d (l.map (fun i => k + i)) st = processFrames inp₂ c d l st := by
  induction l generalizing st with
  | nil => rfl
  | cons idx rest ih =>
    rw [List.map_cons, processFrames_cons, processFrames_cons, h idx (by simp),
      ih _ (fun i hi => h i (by simp [hi]))]

end VoxTape

namespace VoxTape

theorem mk_phase (dl : List ℚ) (p : Nat) : (Resampler.mk dl p).phase = p := rfl

theorem mk_delay (dl : List ℚ) (p : Nat) : (Resampler.mk dl p).delay_line = dl := rfl

theorem stepFrame_delay (d : Nat) (st : Resampler) (mono : ℚ) :
    (stepFrame d st mono).1.delay_line = st.delay_line.tail ++ [mono] := by
  unfold stepFrame
  by_cases h : d ≤ st.phase + 1 <;> simp [h]

theorem stepFrame_fire (d : Nat) (st : Resampler) (mono : ℚ) (h : d ≤ st.phase + 1) :
    stepFrame d st mono =
      (⟨st.delay_line.tail ++ [mono], 0⟩,
       some (quantize (firConv (st.delay_line.tail ++ [mono])))) := by
  unfold stepFrame; simp [h]

theorem stepFrame_skip (d : Nat) (st : Resampler) (mono : ℚ) (h : ¬ d ≤ st.phase + 1) :
    stepFrame d st mono = (⟨st.delay_line.tail ++ [mono], st.phase + 1⟩, none) := by
  unfold stepFrame; simp [h]

theorem processFrames_phase_lt (input : List ℚ) (c d : Nat) (hd : 1 ≤ d)
    (l : List Nat) (st : Resampler) (h : st.phase < d ∨ l ≠ []) :
    (processFrames input c d l st).2.phase < d := by
  induction l generalizing st with
  | nil =>
    rcases h with h | h
    · exact h
    · exact absurd rfl h
  | cons idx rest ih =>
    rw [processFrames_cons]
    refine ih _ (Or.inl ?_)
    by_cases hc : d ≤ st.phase + 1
    · rw [stepFrame_fire _ _ _ hc]
      simp only [mk_phase]
      omega
    · rw [stepFrame_skip _ _ _ hc]
      simp only [mk_phase]
      omega

theorem processFrames_delay_length (input : List ℚ) (c d : Nat) (l : List Nat)
    (st : Resampler) (h : 1 ≤ st.delay_line.length) :
    (processFrames input c d l st).2.delay_line.length = st.delay_line.length := by
  induction l generalizing st with
  | nil => rfl
  | cons idx rest ih =>
    rw [processFrames_cons]
    have hlen : (stepFrame d st (mixdown input c idx)).1.delay_line.length
        = st.delay_line.length := by
      rw [stepFrame_delay, List.length_append, List.length_tail]
      simp only [List.length_singleton]
      omega
    rw [ih _ (by omega), hlen]

theorem processFrames_out_length (input : List ℚ) (c d : Nat) (l : List Nat)
    (st : Resampler) (h : st.phase < d) :
    (processFrames input c d l st).1.length = (st.phase + l.length) / d := by
  induction l generalizing st with
  | nil =>
    simp [processFrames_nil, Nat.div_eq_of_lt h]
  | cons idx rest ih =>
    rw [processFrames_cons, List.length_append]
    by_cases hc : d ≤ st.phase + 1
    · rw [stepFrame_fire _ _ _ hc]
      simp only [Option.toList_some, List.length_cons, List.length_nil]
      rw [ih _ (by simp only [mk_phase]; omega)]
      simp only [mk_phase, Nat.zero_add, List.length_cons]
      have h2 : st.phase + (rest.length + 1) = rest.length + d := by omega
      rw [h2, Nat.add_div_right _ (by omega)]
      omega
    · rw [stepFrame_skip _ _ _ hc]
      simp only [Option.toList_none, List.length_nil, Nat.zero_add, mk_phase]
      rw [ih _ (by simp only [mk_phase]; omega)]
      simp only [mk_phase, List.length_cons]
      congr 1
      omega

end VoxTape

namespace VoxTape

theorem getD_zero_of_all_zero (l : List ℚ) (h : ∀ x ∈ l, x = 0) (i : Nat) :
    l.getD i 0 = 0 := by
  rw [List.getD_eq_getElem?_getD]
  cases hx : l[i]? with
  | none => rfl
  | some x => exact h x (List.getElem?_mem hx)

theorem mixdown_zero (input : List ℚ) (h : ∀ x ∈ input, x = 0) (c i : Nat) :
    mixdown input c i = 0 := by
  unfold mixdown
  have g := getD_zero_of_all_zero input h
  split
  · rw [g, g]; ring
  · exact g _

theorem zipWith_mul_sum_zero :
    ∀ (dl taps : List ℚ), (∀ x ∈ dl, x = 0) → (List.zipWith (· * ·) dl taps).sum = 0
  | [], _, _ => by simp
  | _ :: _, [], _ => by simp
  | a :: dl, t :: taps, h => by
    rw [List.zipWith_cons_cons, List.sum_cons, h a (by simp),
      zipWith_mul_sum_zero dl taps (fun x hx => h x (by simp [hx]))]
    ring

theorem firConv_zero (dl : List ℚ) (h : ∀ x ∈ dl, x = 0) : firConv dl = 0 :=
  zipWith_mul_sum_zero dl LPF_TAPS h

theorem quantize_zero : quantize 0 = 0 := by
  unfold quantize roundAway clampI16
  norm_num

theorem clampI16_bounds (z : ℤ) : -32768 ≤ clampI16 z ∧ clampI16 z ≤ 32767 := by
  unfold clampI16
  exact ⟨le_max_left _ _, max_le (by norm_num) (min_le_left _ _)⟩

theorem processFrames_all_zero (input : List ℚ) (c d : Nat)
    (hinp : ∀ x ∈ input, x = 0) (l : List Nat) (st : Resampler)
    (hst : ∀ x ∈ st.delay_line, x = 0) :
    (∀ z ∈ (processFrames input c d l st).1, z = 0) ∧
      ∀ x ∈ (processFrames input c d l st).2.delay_line, x = 0 := by
  induction l generalizing st with
  | nil =>
    exact ⟨by simp [processFrames_nil], by simpa [processFrames_nil] using hst⟩
  | cons idx rest ih =>
    have hdl : ∀ x ∈ st.delay_line.tail ++ [mixdown input c idx], x = 0 := by
      intro x hx
      rcases List.mem_append.1 hx with hx | hx
      · exact hst x (List.mem_of_mem_tail hx)
      · simp only [List.mem_singleton] at hx
        rw [hx]
        exact mixdown_zero input hinp c idx
    rw [processFrames_cons]
    by_cases hc : d ≤ st.phase + 1
    · rw [stepFrame_fire _ _ _ hc]
      obtain ⟨h1, h2⟩ := ih ⟨st.delay_line.tail ++ [mixdown input c idx], 0⟩ hdl
      refine ⟨?_, h2⟩
      intro z hz
      simp only [Option.toList_some, List.singleton_append, List.mem_cons] at hz
      rcases hz with hz | hz
      · rw [hz, firConv_zero _ hdl, quantize_zero]
      · exact h1 z hz
    · rw [stepFrame_skip _ _ _ hc]
      obtain ⟨h1, h2⟩ := ih ⟨st.delay_line.tail ++ [mixdown input c idx], st.phase + 1⟩ hdl
      refine ⟨?_, h2⟩
      intro z hz
      simp only [Option.toList_none, List.nil_append] at hz
      exact h1 z hz

theorem processFrames_out_quantize (input : List ℚ) (c d : Nat) (l : List Nat)
    (st : Resampler) :
    ∀ z ∈ (processFrames input c d l st).1, ∃ dl, z = quantize (firConv dl) := by
  induction l generalizing st with
  | nil => simp [processFrames_nil]
  | cons idx rest ih =>
    rw [processFrames_cons]
    intro z hz
    by_cases hc : d ≤ st.phase + 1
    · rw [stepFrame_fire _ _ _ hc] at hz
      simp only [Option.toList_some, List.singleton_append, List.mem_cons] at hz
      rcases hz with hz | hz
      · exact ⟨_, hz⟩
      · exact ih _ z hz
    · rw [stepFrame_skip _ _ _ hc] at hz
      simp only [Option.toList_none, List.nil_append] at hz
      exact ih _ z hz

end VoxTape

namespace VoxTape

theorem frameAt_getD (input : List ℚ) (c j i : Nat) (hi : i < c) :
    (frameAt input c j).getD i 0 = input.getD (j * c + i) 0 := by
  unfold frameAt
  rw [List.getD_eq_getElem?_getD, List.getD_eq_getElem?_getD, List.getElem?_take,
    if_pos hi, List.getElem?_drop]

theorem mixdown_eq_monoOfFrameSpec (input : List ℚ) (c j : Nat) (hc : 1 ≤ c) :
    mixdown input c j = monoOfFrameSpec c (frameAt input c j) := by
  unfold mixdown monoOfFrameSpec
  have k0 := frameAt_getD input c j 0 (by omega)
  rw [Nat.add_zero] at k0
  by_cases h2 : 2 ≤ c
  · have k1 := frameAt_getD input c j 1 (by omega)
    rw [if_pos h2, if_pos h2, k0, k1]
  · rw [if_neg h2, if_neg h2, k0]

theorem frame_index_bound (len c j i : Nat) (hi : i < c) (hj : j < len / c) :
    j * c + i < len := by
  have h1 : (j + 1) * c ≤ (len / c) * c := Nat.mul_le_mul_right _ hj
  have h2 : (len / c) * c ≤ len := Nat.div_mul_le_self _ _
  have h3 : j * c + i < (j + 1) * c := by
    rw [Nat.add_mul, Nat.one_mul]
    omega
  omega

theorem mixdown_append_left (A B : List ℚ) (c j : Nat) (hj : j < A.length / c) :
    mixdown (A ++ B) c j = mixdown A c j := by
  unfold mixdown
  by_cases hc : c = 0
  · subst hc
    simp at hj
  by_cases h2 : 2 ≤ c
  · have b0 := frame_index_bound A.length c j 0 (by omega) hj
    rw [Nat.add_zero] at b0
    rw [if_pos h2, if_pos h2, List.getD_append _ _ _ _ b0,
      List.getD_append _ _ _ _ (frame_index_bound _ _ _ 1 (by omega) hj)]
  · have b0 := frame_index_bound A.length c j 0 (by omega) hj
    rw [Nat.add_zero] at b0
    rw [if_neg h2, if_neg h2, List.getD_append _ _ _ _ b0]

theorem mixdown_append_right (A B : List ℚ) (c nA j : Nat) (hA : A.length = nA * c) :
    mixdown (A ++ B) c (nA + j) = mixdown B c j := by
  unfold mixdown
  have key : ∀ i : Nat, (A ++ B).getD ((nA + j) * c + i) 0 = B.getD (j * c + i) 0 := by
    intro i
    have hidx : (nA + j) * c + i = A.length + (j * c + i) := by
      rw [hA, Nat.add_mul]
      omega
    rw [hidx, List.getD_append_right _ _ _ _ (by omega)]
    congr 1
    omega
  have k0 := key 0
  rw [Nat.add_zero, Nat.add_zero] at k0
  by_cases h2 : 2 ≤ c
  · rw [if_pos h2, if_pos h2, k0, key 1]
  · rw [if_neg h2, if_neg h2, k0]

theorem mixdown_take (input : List ℚ) (c j n : Nat) (hn : (input.length / c) * c ≤ n)
    (hj : j < input.length / c) :
    mixdown (input.take n) c j = mixdown input c j := by
  unfold mixdown
  have key : ∀ i : Nat, i < c → (input.take n).getD (j * c + i) 0 = input.getD (j * c + i) 0 := by
    intro i hi
    rw [List.getD_eq_getElem?_getD, List.getD_eq_getElem?_getD, List.getElem?_take, if_pos]
    have h3 : j * c + i < (j + 1) * c := by
      rw [Nat.add_mul, Nat.one_mul]; omega
    have h1 : (j + 1) * c ≤ (input.length / c) * c := Nat.mul_le_mul_right _ hj
    omega
  by_cases hc : c = 0
  · subst hc; simp at hj
  have k0 := key 0 (by omega)
  rw [Nat.add_zero] at k0
  by_cases h2 : 2 ≤ c
  · rw [if_pos h2, if_pos h2, k0, key 1 (by omega)]
  · rw [if_neg h2, if_neg h2, k0]

theorem processFrames_delay_content (input : List ℚ) (c d : Nat) (l : List Nat)
    (st : Resampler) (h : 1 ≤ st.delay_line.length) :
    (processFrames input c d l st).2.delay_line =
      (st.delay_line ++ l.map (mixdown input c)).drop l.length := by
  induction l generalizing st with
  | nil => simp [processFrames_nil]
  | cons idx rest ih =>
    obtain ⟨a, tl, ha⟩ : ∃ a tl, st.delay_line = a :: tl := by
      cases hdl : st.delay_line with
      | nil => rw [hdl] at h; simp at h
      | cons a tl => exact ⟨a, tl, rfl⟩
    rw [processFrames_cons]
    have hst' : (stepFrame d st (mixdown input c idx)).1.delay_line
        = st.delay_line.tail ++ [mixdown input c idx] := stepFrame_delay _ _ _
    rw [ih _ (by rw [hst', List.length_append]; simp), hst', ha]
    simp only [List.tail_cons, List.map_cons, List.length_cons, List.cons_append,
      List.drop_succ_cons, List.append_assoc, List.singleton_append, List.nil_append]

end VoxTape

namespace VoxTape

theorem LPF_TAPS_length : LPF_TAPS.length = 15 := rfl

theorem process_zero_rate (st : Resampler) (input : List ℚ) (c r : Nat)
    (h : r / 16000 = 0) : process st input c r = some ([], st) := by
  unfold process
  simp [h]

theorem process_chan_zero (st : Resampler) (input : List ℚ) (r : Nat)
    (h : r / 16000 ≠ 0) : process st input 0 r = none := by
  unfold process
  simp [h]

theorem process_run (st : Resampler) (input : List ℚ) (c r : Nat)
    (h : r / 16000 ≠ 0) (hc : c ≠ 0) :
    process st input c r =
      some (processFrames input c (r / 16000) (List.range (input.length / c)) st) := by
  unfold process
  simp [h, hc]

theorem reset_eq_new (st : Resampler) (h : st.delay_line.length = LPF_TAPS.length) :
    st.reset = Resampler.new := by
  unfold Resampler.reset Resampler.new
  rw [h]

/-- Claim C2 counterexample: `input_rate = 24000` is not a multiple of 16000,
yet `process` on a one-sample mono input returns a non-empty output (the
truncated decimation factor is `24000 / 16000 = 1`, so every frame fires). -/
theorem silent_degradation_counterexample :
    ¬ (24000 % 16000 = 0) ∧
    process Resampler.new [1] 1 24000 =
      some ([79], ⟨[0, 0, 0, 0, 0, 0, 0, 0, 0, 0, 0, 0, 0, 0, 1], 0⟩) ∧
    ([79] : List ℤ) ≠ [] := by
  refine ⟨by norm_num, ?_, by simp⟩
  simp only [process, processFrames, stepFrame, mixdown, firConv, quantize, roundAway,
    clampI16, LPF_TAPS, Resampler.new]
  norm_num [List.range_succ, List.replicate, List.zipWith_cons_cons, List.zipWith_nil_right,
    List.sum_cons, List.sum_nil, Int.max_def, Int.min_def]

/-- Claim C2 (amended): `process` degrades silently to empty output (with the
state unchanged) exactly in the `decimation_factor = 0` case, i.e. when
`input_rate < 16000`; a non-multiple of 16000 at or above 16000 is instead
processed with the truncated decimation factor. -/
theorem silent_degradation_amended (st : Resampler) (input : List ℚ) (c r : Nat)
    (h : r < 16000) : process st input c r = some ([], st) :=
  process_zero_rate st input c r (Nat.div_eq_of_lt h)

/-- Witness for C2 (amended) at `input_rate = 8000`. -/
theorem silent_degradation_amended_witness :
    process Resampler.new [1] 1 8000 = some ([], Resampler.new) :=
  silent_degradation_amended Resampler.new [1] 1 8000 (by norm_num)

/-- Claim C3: from a freshly constructed (or freshly reset) resampler,
`process` at 48 kHz mono on any 4800-sample input yields exactly 1600
output samples. -/
theorem decimation_ratio (input : List ℚ) (st : Resampler)
    (hlen : input.length = 4800)
    (hst : st.delay_line.length = LPF_TAPS.length) :
    (process Resampler.new input 1 48000).map (fun p => p.1.length) = some 1600 ∧
    (process st.reset input 1 48000).map (fun p => p.1.length) = some 1600 := by
  have hnew : (process Resampler.new input 1 48000).map (fun p => p.1.length)
      = some 1600 := by
    rw [process_run _ _ _ _ (by norm_num) (by norm_num), Option.map_some',
      processFrames_out_length _ _ _ _ _ (show Resampler.new.phase < 3 by norm_num [Resampler.new, mk_phase]),
      List.length_range, Nat.div_one, hlen]
    show some ((0 + 4800) / 3) = some 1600
    norm_num
  exact ⟨hnew, by rw [reset_eq_new st hst]; exact hnew⟩

/-- Witness for C3 on the all-zero 4800-sample input, reset from a dirty
state of full-length delay line. -/
theorem decimation_ratio_witness :
    (List.replicate 4800 (0 : ℚ)).length = 4800 ∧
    (process Resampler.new (List.replicate 4800 (0 : ℚ)) 1 48000).map
      (fun p => p.1.length) = some 1600 := by
  refine ⟨by rw [List.length_replicate], ?_⟩
  exact (decimation_ratio (List.replicate 4800 0) Resampler.new
    (by rw [List.length_replicate]) rfl).1

end VoxTape

namespace VoxTape

/-- Claim C1 counterexample: splitting the input at a point that is not a
frame boundary changes the final state.  With stereo input, `[1] ++ [1]`
processed in one call consumes one complete frame (advancing the phase and
the delay line), while `[1]` then `[1]` processed separately consume zero
complete frames each. -/
theorem chunking_counterexample :
    process Resampler.new ([1] ++ [1]) 2 48000 ≠
      (process Resampler.new [1] 2 48000).bind fun r₁ =>
        (process r₁.2 [1] 2 48000).map fun r₂ => (r₁.1 ++ r₂.1, r₂.2) := by
  simp only [process, processFrames, stepFrame, mixdown, firConv, quantize, roundAway,
    clampI16, LPF_TAPS, Resampler.new]
  norm_num [List.range_succ, List.replicate, List.zipWith_cons_cons, List.zipWith_nil_right,
    List.sum_cons, List.sum_nil, Int.max_def, Int.min_def]

/-- Claim C1 (amended): chunking does not change results, provided the split
point is a frame boundary (the first chunk consists of whole frames, i.e.
`channels ∣ A.length`) and `channels ≥ 1`.  Output, and final state, of one
call on `A ++ B` agree with two consecutive calls on `A` then `B`. -/
theorem chunking_amended (st : Resampler) (A B : List ℚ) (c r : Nat)
    (hc : 1 ≤ c) (hA : c ∣ A.length) :
    process st (A ++ B) c r =
      (process st A c r).bind fun r₁ =>
        (process r₁.2 B c r).map fun r₂ => (r₁.1 ++ r₂.1, r₂.2) := by
  by_cases hd : r / 16000 = 0
  · rw [process_zero_rate _ _ _ _ hd, process_zero_rate _ _ _ _ hd]
    simp only [Option.some_bind]
    rw [process_zero_rate _ _ _ _ hd]
    simp
  · obtain ⟨nA, hnA⟩ := hA
    have hcz : c ≠ 0 := by omega
    rw [process_run _ _ _ _ hd hcz, process_run _ _ _ _ hd hcz]
    simp only [Option.some_bind]
    rw [process_run _ _ _ _ hd hcz, Option.map_some']
    have hnA' : A.length / c = nA := by
      rw [hnA, Nat.mul_div_cancel_left _ (by omega)]
    have hlen : (A ++ B).length / c = nA + B.length / c := by
      rw [List.length_append, hnA, Nat.mul_add_div (by omega)]
    rw [hlen, List.range_add, processFrames_append]
    have hfirst :
        processFrames (A ++ B) c (r / 16000) (List.range nA) st =
          processFrames A c (r / 16000) (List.range nA) st := by
      apply processFrames_congr
      intro i hi
      exact mixdown_append_left A B c i (by rw [hnA']; exact List.mem_range.1 hi)
    have hsecond : ∀ st' : Resampler,
        processFrames (A ++ B) c (r / 16000)
            ((List.range (B.length / c)).map fun x => nA + x) st' =
          processFrames B c (r / 16000) (List.range (B.length / c)) st' := by
      intro st'
      apply processFrames_map_add
      intro i _
      exact mixdown_append_right A B c nA i (by rw [hnA, Nat.mul_comm])
    rw [hfirst, hsecond, hnA']

/-- Witness for C1 (amended): mono input split as `[1, 2]` then `[3]`. -/
theorem chunking_amended_witness :
    process Resampler.new ([1, 2] ++ [3]) 1 48000 =
      (process Resampler.new [1, 2] 1 48000).bind fun r₁ =>
        (process r₁.2 [3] 1 48000).map fun r₂ => (r₁.1 ++ r₂.1, r₂.2) :=
  chunking_amended Resampler.new [1, 2] [3] 1 48000 (by norm_num) (by norm_num)

end VoxTape

namespace VoxTape

/-- Claim C4: per-frame downmix.  The value `mixdown` enters into the delay
line for frame `j` is exactly the spec's per-frame mono value — the average
of the frame's first two channel samples when `channel_count ≥ 2`, the
frame's sample unchanged when `channel_count = 1` — and consequently the
delay line left behind by `process` is the input's per-frame mono values
(spec view) shifted into the old delay line. -/
theorem downmix_per_frame (input : List ℚ) (c j r : Nat) (st : Resampler)
    (hc : 1 ≤ c) (hr : 16000 ≤ r) (hdl : 1 ≤ st.delay_line.length) :
    mixdown input c j = monoOfFrameSpec c (frameAt input c j) ∧
    (process st input c r).map (fun p => p.2.delay_line) =
      some ((st.delay_line ++ (List.range (input.length / c)).map
        (fun i => monoOfFrameSpec c (frameAt input c i))).drop (input.length / c)) := by
  refine ⟨mixdown_eq_monoOfFrameSpec input c j hc, ?_⟩
  have hd : r / 16000 ≠ 0 := by
    have : 16000 / 16000 ≤ r / 16000 := Nat.div_le_div_right hr
    norm_num at this
    omega
  rw [process_run _ _ _ _ hd (by omega), Option.map_some',
    processFrames_delay_content _ _ _ _ _ hdl, List.length_range]
  congr 2
  exact congrArg (st.delay_line ++ ·)
    (List.map_congr_left fun i _ => mixdown_eq_monoOfFrameSpec input c i hc)

/-- Witness for C4: stereo frame `[3, 5]` mixes down to `4`. -/
theorem downmix_per_frame_witness :
    mixdown [3, 5] 2 0 = monoOfFrameSpec 2 (frameAt [3, 5] 2 0) ∧
    (process Resampler.new [3, 5] 2 48000).map (fun p => p.2.delay_line) =
      some ((Resampler.new.delay_line ++ (List.range ([3, 5].length / 2)).map
        (fun i => monoOfFrameSpec 2 (frameAt [3, 5] 2 i))).drop ([3, 5].length / 2)) :=
  downmix_per_frame [3, 5] 2 0 48000 Resampler.new (by norm_num) (by norm_num)
    (by rw [Resampler.new, mk_delay, List.length_replicate, LPF_TAPS_length]; norm_num)

/-- Claim C5: every output sample of `process` is the filtered value scaled
by 32767, rounded to nearest, and clamped to the signed 16-bit range, so
every output sample lies within `[-32768, 32767]` for any input magnitude. -/
theorem output_quantized_and_clamped (st : Resampler) (input : List ℚ) (c r : Nat)
    (out : List ℤ) (st' : Resampler)
    (h : process st input c r = some (out, st')) :
    ∀ z ∈ out, (∃ dl, z = clampI16 (roundAway (firConv dl * 32767))) ∧
      -32768 ≤ z ∧ z ≤ 32767 := by
  intro z hz
  have hq : ∃ dl, z = quantize (firConv dl) := by
    by_cases hd : r / 16000 = 0
    · rw [process_zero_rate _ _ _ _ hd] at h
      simp only [Option.some.injEq, Prod.mk.injEq] at h
      rw [← h.1] at hz
      simp at hz
    · by_cases hcz : c = 0
      · rw [hcz, process_chan_zero _ _ _ hd] at h
        simp at h
      · rw [process_run _ _ _ _ hd hcz] at h
        simp only [Option.some.injEq] at h
        exact processFrames_out_quantize _ _ _ _ _ z (by rw [h]; exact hz)
  obtain ⟨dl, hq⟩ := hq
  have hb := clampI16_bounds (roundAway (firConv dl * 32767))
  rw [quantize] at hq
  exact ⟨⟨dl, hq⟩, by rw [hq]; exact hb.1, by rw [hq]; exact hb.2⟩

end VoxTape

namespace VoxTape

/-- Witness for C5 on the over-range constant input `2.0`. -/
theorem output_quantized_and_clamped_witness :
    (∃ dl, (1710 : ℤ) = clampI16 (roundAway (firConv dl * 32767))) ∧
      -32768 ≤ (1710 : ℤ) ∧ (1710 : ℤ) ≤ 32767 :=
  output_quantized_and_clamped Resampler.new [2, 2, 2] 1 48000 [1710]
    ⟨[0, 0, 0, 0, 0, 0, 0, 0, 0, 0, 0, 0, 2, 2, 2], 0⟩ (by
      simp only [process, processFrames, stepFrame, mixdown, firConv, quantize, roundAway,
        clampI16, LPF_TAPS, Resampler.new]
      norm_num [List.range_succ, List.replicate, List.zipWith_cons_cons,
        List.zipWith_nil_right, List.sum_cons, List.sum_nil, Int.max_def, Int.min_def])
    1710 (by norm_num)

/-- Claim C6: `reset()` on any reachable state (delay line of filter-tap
length) yields exactly the freshly constructed resampler; processing all-zero
input from the reset state gives the same result as from a fresh resampler,
and that output is all-zero. -/
theorem reset_is_fresh (st : Resampler) (n c r : Nat) (out : List ℤ)
    (st' : Resampler)
    (h : st.delay_line.length = LPF_TAPS.length)
    (hp : process st.reset (List.replicate n 0) c r = some (out, st')) :
    st.reset = Resampler.new ∧
    process st.reset (List.replicate n 0) c r =
      process Resampler.new (List.replicate n 0) c r ∧
    ∀ z ∈ out, z = 0 := by
  have he := reset_eq_new st h
  refine ⟨he, by rw [he], ?_⟩
  rw [he] at hp
  intro z hz
  by_cases hd : r / 16000 = 0
  · rw [process_zero_rate _ _ _ _ hd] at hp
    simp only [Option.some.injEq, Prod.mk.injEq] at hp
    rw [← hp.1] at hz
    simp at hz
  · by_cases hcz : c = 0
    · rw [hcz, process_chan_zero _ _ _ hd] at hp
      simp at hp
    · rw [process_run _ _ _ _ hd hcz] at hp
      simp only [Option.some.injEq] at hp
      have hzero := processFrames_all_zero (List.replicate n 0) c (r / 16000)
        (fun x hx => List.eq_of_mem_replicate hx)
        (List.range ((List.replicate n (0 : ℚ)).length / c)) Resampler.new
        (fun x hx => List.eq_of_mem_replicate (by
          rw [Resampler.new, mk_delay] at hx
          exact hx))
      exact hzero.1 z (by rw [hp]; exact hz)

/-- Witness for C6: a dirty full-length state, reset, on three zero input
samples at 48 kHz. -/
theorem reset_is_fresh_witness :
    (⟨List.replicate 15 1, 3⟩ : Resampler).reset = Resampler.new ∧ (0 : ℤ) = 0 := by
  have h := reset_is_fresh ⟨List.replicate 15 1, 3⟩ 3 1 48000 [0]
    ⟨List.replicate 15 0, 0⟩
    (by rw [mk_delay, List.length_replicate, LPF_TAPS_length])
    (by
      simp only [Resampler.reset, mk_delay, List.length_replicate, process, processFrames,
        stepFrame, mixdown, firConv, quantize, roundAway, clampI16, LPF_TAPS]
      norm_num [List.range_succ, List.replicate, List.zipWith_cons_cons,
        List.zipWith_nil_right, List.sum_cons, List.sum_nil, Int.max_def, Int.min_def])
  exact ⟨h.1, h.2.2 0 (by norm_num)⟩

end VoxTape

namespace VoxTape

/-- Claim C7 counterexample: the phase bound `phase < decimation_factor` is
not an invariant across calls with different input rates.  From a fresh
state, seven frames at 160 kHz (decimation factor 10) leave `phase = 7`;
a following call with empty input at 16 kHz (decimation factor 1) processes
zero frames and returns with `phase = 7 ≥ 1`. -/
theorem invariant_counterexample :
    process Resampler.new (List.replicate 7 0) 1 160000 =
      some ([], ⟨List.replicate 15 0, 7⟩) ∧
    process (⟨List.replicate 15 0, 7⟩ : Resampler) [] 1 16000 =
      some ([], ⟨List.replicate 15 0, 7⟩) ∧
    1 ≤ 16000 / 16000 ∧
    ¬ ((⟨List.replicate 15 0, 7⟩ : Resampler).phase < 16000 / 16000) := by
  refine ⟨?_, ?_, by norm_num, by rw [mk_phase]; norm_num⟩
  · simp only [process, processFrames, stepFrame, mixdown, firConv, quantize, roundAway,
      clampI16, LPF_TAPS, Resampler.new]
    norm_num [List.range_succ, List.replicate, List.zipWith_cons_cons,
      List.zipWith_nil_right, List.sum_cons, List.sum_nil, Int.max_def, Int.min_def]
  · simp only [process, processFrames, stepFrame, mixdown, firConv, quantize, roundAway,
      clampI16, LPF_TAPS]
    norm_num [List.range_succ, List.replicate]

/-- Claim C7 (amended): the delay line keeps the filter-tap length (15)
through `new`, `reset`, and `process`; and a `process` call with
`decimation_factor ≥ 1` ends with `phase < decimation_factor` provided the
starting phase already satisfied the bound or at least one complete frame
was processed. -/
theorem invariant_amended (st : Resampler) (input : List ℚ) (c r : Nat)
    (out : List ℤ) (st' : Resampler)
    (hp : process st input c r = some (out, st'))
    (hlen : st.delay_line.length = LPF_TAPS.length)
    (hd : 1 ≤ r / 16000)
    (hph : st.phase < r / 16000 ∨ 1 ≤ input.length / c) :
    Resampler.new.delay_line.length = LPF_TAPS.length ∧
    st.reset.delay_line.length = LPF_TAPS.length ∧
    st'.delay_line.length = LPF_TAPS.length ∧
    st'.phase < r / 16000 := by
  refine ⟨by rw [Resampler.new, mk_delay, List.length_replicate],
    by rw [Resampler.reset, mk_delay, List.length_replicate, hlen], ?_, ?_⟩
  all_goals {
    by_cases hcz : c = 0
    · rw [hcz, process_chan_zero _ _ _ (by omega)] at hp
      simp at hp
    · rw [process_run _ _ _ _ (by omega) hcz] at hp
      simp only [Option.some.injEq] at hp
      first
      | (rw [show st' = (processFrames input c (r / 16000)
            (List.range (input.length / c)) st).2 from by rw [hp],
          processFrames_delay_length _ _ _ _ _ (by rw [hlen, LPF_TAPS_length]; omega)]
         exact hlen)
      | (rw [show st' = (processFrames input c (r / 16000)
            (List.range (input.length / c)) st).2 from by rw [hp]]
         refine processFrames_phase_lt _ _ _ hd _ _ ?_
         rcases hph with hph | hph
         · exact Or.inl hph
         · refine Or.inr ?_
           intro hnil
           rw [List.range_eq_nil] at hnil
           omega)
  }

/-- Witness for C7 (amended): a fresh resampler on three mono samples at
48 kHz. -/
theorem invariant_amended_witness :
    Resampler.new.delay_line.length = LPF_TAPS.length ∧
    Resampler.new.reset.delay_line.length = LPF_TAPS.length ∧
    (⟨[0, 0, 0, 0, 0, 0, 0, 0, 0, 0, 0, 0, 1, 2, 3], 0⟩ : Resampler).delay_line.length
      = LPF_TAPS.length ∧
    (⟨[0, 0, 0, 0, 0, 0, 0, 0, 0, 0, 0, 0, 1, 2, 3], 0⟩ : Resampler).phase
      < 48000 / 16000 :=
  invariant_amended Resampler.new [1, 2, 3] 1 48000 [1209]
    ⟨[0, 0, 0, 0, 0, 0, 0, 0, 0, 0, 0, 0, 1, 2, 3], 0⟩
    (by
      simp only [process, processFrames, stepFrame, mixdown, firConv, quantize, roundAway,
        clampI16, LPF_TAPS, Resampler.new]
      norm_num [List.range_succ, List.replicate, List.zipWith_cons_cons,
        List.zipWith_nil_right, List.sum_cons, List.sum_nil, Int.max_def, Int.min_def])
    (by rw [Resampler.new, mk_delay, List.length_replicate])
    (by norm_num)
    (Or.inl (by rw [Resampler.new, mk_phase]; norm_num))

end VoxTape

namespace VoxTape

/-- Claim C10 counterexample: with `channel_count = 0` and
`input_rate = 8000`, the `decimation_factor == 0` early return fires before
the frame-count division, so `process` does have a defined result (empty
output, unchanged state) rather than a division by zero. -/
theorem totality_counterexample :
    process Resampler.new [1] 0 8000 = some ([], Resampler.new) ∧
    (process Resampler.new [1] 0 8000).isSome = true := by
  have h := process_zero_rate Resampler.new [1] 0 8000 (by norm_num)
  exact ⟨h, by rw [h]; rfl⟩

/-- Claim C10 (amended): for `channel_count ≥ 1`, `process` is total and
reads only the first `(input.length / channels) * channels` samples —
trailing samples of an incomplete frame never influence the result.  For
`channel_count = 0` the frame-count computation divides by zero (no defined
result) only when `decimation_factor ≥ 1`; when `input_rate < 16000` the
early return yields empty output before the division is reached. -/
theorem totality_amended (st : Resampler) (input : List ℚ) (c r : Nat) :
    if c = 0 then
      (if r / 16000 = 0 then process st input 0 r = some ([], st)
       else process st input 0 r = none)
    else
      (process st input c r).isSome = true ∧
      process st input c r =
        process st (input.take ((input.length / c) * c)) c r := by
  by_cases hcz : c = 0
  · subst hcz
    rw [if_pos rfl]
    by_cases hd : r / 16000 = 0
    · rw [if_pos hd]
      exact process_zero_rate _ _ _ _ hd
    · rw [if_neg hd]
      exact process_chan_zero _ _ _ hd
  · rw [if_neg hcz]
    by_cases hd : r / 16000 = 0
    · rw [process_zero_rate _ _ _ _ hd, process_zero_rate _ _ _ _ hd]
      exact ⟨rfl, rfl⟩
    · rw [process_run _ _ _ _ hd hcz, process_run _ _ _ _ hd hcz]
      refine ⟨rfl, ?_⟩
      have hfc : (input.take ((input.length / c) * c)).length / c = input.length / c := by
        rw [List.length_take, min_eq_left (Nat.div_mul_le_self _ _),
          Nat.mul_div_cancel _ (by omega)]
      rw [hfc]
      congr 1
      refine processFrames_congr _ _ _ _ _ _ ?_
      intro i hi
      exact (mixdown_take input c i _ (le_refl _) (List.mem_range.1 hi)).symm

/-- Claim C8: a second `start()` without an intervening `stop()` returns
`AlreadyCapturing` and leaves the first session's capture state and callback
context exactly as they were. -/
theorem start_twice_already_capturing (cb₁ cb₂ : Nat) (r₁ r₂ : Int)
    (g₀ g₁ : GlobalState)
    (h : start_capture cb₁ r₁ g₀ = (.ok, g₁)) :
    start_capture cb₂ r₂ g₁ = (.alreadyCapturing, g₁) := by
  unfold start_capture at h ⊢
  by_cases hs : g₀.capture_state.isSome
  · rw [if_pos hs] at h
    simp at h
  · rw [if_neg hs] at h
    by_cases hr : r₁ ≠ 0
    · rw [if_pos hr] at h
      simp at h
    · rw [if_neg hr] at h
      simp only [Prod.mk.injEq] at h
      rw [← h.2]
      simp

/-- Witness for C8 from the idle initial state, with backend success code 0
for the first call. -/
theorem start_twice_already_capturing_witness :
    start_capture 1 5
        ⟨some ⟨.Sck⟩, some ⟨0, Resampler.new⟩⟩ =
      (.alreadyCapturing, ⟨some ⟨.Sck⟩, some ⟨0, Resampler.new⟩⟩) :=
  start_twice_already_capturing 0 1 0 5 ⟨none, none⟩
    ⟨some ⟨.Sck⟩, some ⟨0, Resampler.new⟩⟩ rfl

/-- Claim C9: `stop()` while idle (no capture state, no callback context)
succeeds, leaves the state exactly unchanged, and invokes no backend
teardown. -/
theorem stop_idle_noop (g : GlobalState) (h1 : g.capture_state = none)
    (h2 : g.callback_context = none) :
    stop_capture g = (.ok (), g, false) := by
  have : g = ⟨none, none⟩ := by
    cases g
    simp_all
  subst this
  rfl

/-- Witness for C9 at the explicit idle state. -/
theorem stop_idle_noop_witness :
    stop_capture ⟨none, none⟩ = (.ok (), ⟨none, none⟩, false) :=
  stop_idle_noop ⟨none, none⟩ rfl rfl

end VoxTape
